import Mathlib

/-!
Verification of the question-answering scoring core of the
213-question-answering notebook.

The embedding models the numpy code over exact rationals.  The function
find_best_answer_window builds the outer-product matrix of the two score
slices, zeroes the entries below the diagonal (np.triu) and the entries
more than 16 above the diagonal (np.tril with offset 16), flattens the
matrix row-major and takes the index of the first occurrence of the
maximum (np.argmax).  Situations in which the numpy code raises
(reshape of a slice that does not fill the requested shape, argmax of an
empty array, negative reshape dimension) are modelled as none.
-/

namespace QA

/-- Python slice xs[a:b] for natural bounds: drop a, keep at most b - a. -/
def pySlice (xs : List ℚ) (a b : ℕ) : List ℚ :=
  (xs.drop a).take (b - a)

/-- Entry (i, j) of the masked score matrix over the two context slices:
the product start[i] * end[j] after np.triu (zero where j < i) and
np.tril with offset 16 (zero where j - i > 16). -/
def maskedEntry (s e : List ℚ) (i j : ℕ) : ℚ :=
  if i ≤ j ∧ j ≤ i + 16 then s.getD i 0 * e.getD j 0 else 0

/-- Row-major flattening of the masked cl x cl score matrix,
as produced by score_mat.flatten(). -/
def scoreFlat (s e : List ℚ) (cl : ℕ) : List ℚ :=
  (List.range (cl * cl)).map (fun k => maskedEntry s e (k / cl) (k % cl))

/-- Index and value of the first occurrence of the maximum of the list
x :: xs, scanning left to right (ties go to the earliest index). -/
def argmaxPair (x : ℚ) : List ℚ → ℕ × ℚ
  | [] => (0, x)
  | y :: ys =>
    let p := argmaxPair y ys
    if x < p.2 then (p.1 + 1, p.2) else (0, x)

/-- Index of the first occurrence of the maximum of a list, as returned
by np.argmax on the flattened matrix. -/
def argmaxIdx : List ℚ → ℕ
  | [] => 0
  | x :: xs => (argmaxPair x xs).1

/-- Embedding of find_best_answer_window.  The result is none exactly
when the numpy code raises: context_end_idx <= context_start_idx gives a
negative or zero reshape dimension or an argmax of an empty array, and a
score vector shorter than context_end_idx gives a slice that cannot be
reshaped to (context_len, 1).  Otherwise the triple
(score_mat[max_s, max_e], max_s, max_e) is returned, with
(max_s, max_e) = divmod(argmax of the flattened matrix, context_len). -/
def find_best_answer_window (start_score end_score : List ℚ)
    (context_start_idx context_end_idx : ℕ) : Option (ℚ × ℕ × ℕ) :=
  if context_end_idx ≤ context_start_idx then none
  else
    let cl := context_end_idx - context_start_idx
    let s := pySlice start_score context_start_idx context_end_idx
    let e := pySlice end_score context_start_idx context_end_idx
    if s.length = cl ∧ e.length = cl then
      let idx := argmaxIdx (scoreFlat s e cl)
      some (maskedEntry s e (idx / cl) (idx % cl), idx / cl, idx % cl)
    else none

/-- Valid answer windows inside a context of length cl: start at or
before end, span offset at most 16, end inside the context. -/
def validPair (cl i j : ℕ) : Prop :=
  i ≤ j ∧ j ≤ i + 16 ∧ j < cl

instance (cl i j : ℕ) : Decidable (validPair cl i j) := by
  unfold validPair; infer_instance

/-- Embedding of postprocess after the softmax step: the two score
vectors are the post-softmax probabilities (get_score is applied
upstream and kept abstract since it is a real-valued transcendental).
The code indexes context_tokens_start_end directly with the
context-local indices returned by find_best_answer_window; an
out-of-range lookup (IndexError) is modelled as none. -/
def postprocess (score_start score_end : List ℚ)
    (question_len input_size : ℕ)
    (context_tokens_start_end : List (ℕ × ℕ)) : Option (ℚ × ℕ × ℕ) :=
  let context_start_idx := question_len + 2
  let context_end_idx := input_size - 1
  match find_best_answer_window score_start score_end
      context_start_idx context_end_idx with
  | none => none
  | some (max_score, max_s, max_e) =>
    match context_tokens_start_end[max_s]?,
          context_tokens_start_end[max_e]? with
    | some p, some q => some (max_score, p.1, q.2)
    | _, _ => none

/-- Modelled from the spec: the index mapping the spec attributes to the
caller, namely adding context_start_idx to the context-local indices and
looking the resulting full-sequence indices up in the span index map. -/
def postprocessSpec (score_start score_end : List ℚ)
    (question_len input_size : ℕ)
    (context_tokens_start_end : List (ℕ × ℕ)) : Option (ℚ × ℕ × ℕ) :=
  let context_start_idx := question_len + 2
  let context_end_idx := input_size - 1
  match find_best_answer_window score_start score_end
      context_start_idx context_end_idx with
  | none => none
  | some (max_score, max_s, max_e) =>
    match context_tokens_start_end[context_start_idx + max_s]?,
          context_tokens_start_end[context_start_idx + max_e]? with
    | some p, some q => some (max_score, p.1, q.2)
    | _, _ => none

/-- Python string slice context[a:b] on the context as a character list. -/
def strSlice (context : List Char) (a b : ℕ) : List Char :=
  (context.drop a).take (b - a)

/-- Embedding of get_best_answer after tokenization and inference: the
context is a character list, the score vectors are the model outputs
after softmax, and context_tokens_start_end is the span index map with
one (start-char, end-char) pair per context token.  input_size is
len(context_tokens) + len(question_tokens) + 3 as in the source. -/
def get_best_answer_core (context : List Char)
    (score_start score_end : List ℚ)
    (question_len context_tokens_len : ℕ)
    (context_tokens_start_end : List (ℕ × ℕ)) : Option (List Char × ℚ) :=
  let input_size := context_tokens_len + question_len + 3
  match postprocess score_start score_end question_len input_size
      context_tokens_start_end with
  | none => none
  | some (sc, a, b) => some (strSlice context a b, sc)

/-- Embedding of prepare_input restricted to the three inputs every
model receives (position_ids is added only for models that request it).
Tokens are naturals; cls_token and sep_token are parameters standing for
the vocabulary entries of CLS and SEP. -/
def prepare_input (question_tokens context_tokens : List ℕ)
    (cls_token sep_token : ℕ) : List ℕ × List ℕ × List ℕ :=
  let input_ids :=
    [cls_token] ++ question_tokens ++ [sep_token] ++ context_tokens ++ [sep_token]
  let attention_mask := List.replicate input_ids.length 1
  let token_type_ids :=
    List.replicate (question_tokens.length + 2) 0 ++
      List.replicate (context_tokens.length + 1) 1
  (input_ids, attention_mask, token_type_ids)

/-! Basic properties of the argmax scan. -/

theorem argmaxPair_snd_eq_getD (x : ℚ) (xs : List ℚ) :
    (argmaxPair x xs).2 = (x :: xs).getD (argmaxPair x xs).1 0 := by
  induction xs generalizing x with
  | nil => simp [argmaxPair]
  | cons y ys ih =>
    simp only [argmaxPair]
    by_cases h : x < (argmaxPair y ys).2
    · simp only [if_pos h, List.getD_cons_succ]
      exact ih y
    · simp [if_neg h]

theorem argmaxPair_fst_lt (x : ℚ) (xs : List ℚ) :
    (argmaxPair x xs).1 < xs.length + 1 := by
  induction xs generalizing x with
  | nil => simp [argmaxPair]
  | cons y ys ih =>
    simp only [argmaxPair]
    by_cases h : x < (argmaxPair y ys).2
    · simp only [if_pos h, List.length_cons]
      exact Nat.succ_lt_succ (ih y)
    · simp [if_neg h]

theorem argmaxPair_le (x : ℚ) (xs : List ℚ) :
    ∀ k, k < xs.length + 1 → (x :: xs).getD k 0 ≤ (argmaxPair x xs).2 := by
  induction xs generalizing x with
  | nil =>
    intro k hk
    have hk0 : k = 0 := by simpa using hk
    subst hk0
    simp [argmaxPair]
  | cons y ys ih =>
    intro k hk
    simp only [argmaxPair]
    by_cases h : x < (argmaxPair y ys).2
    · simp only [if_pos h]
      cases k with
      | zero => simpa using le_of_lt h
      | succ k =>
        rw [List.getD_cons_succ]
        exact ih y k (by simpa using hk)
    · simp only [if_neg h]
      cases k with
      | zero => simp
      | succ k =>
        rw [List.getD_cons_succ]
        exact le_trans (ih y k (by simpa using hk)) (le_of_not_lt h)

theorem argmaxPair_first (x : ℚ) (xs : List ℚ) :
    ∀ k, k < (argmaxPair x xs).1 → (x :: xs).getD k 0 < (argmaxPair x xs).2 := by
  induction xs generalizing x with
  | nil =>
    intro k hk
    simp [argmaxPair] at hk
  | cons y ys ih =>
    intro k hk
    simp only [argmaxPair]
    by_cases h : x < (argmaxPair y ys).2
    · simp only [if_pos h]
      cases k with
      | zero => simpa using h
      | succ k =>
        rw [List.getD_cons_succ]
        refine ih y k ?_
        simpa [argmaxPair, if_pos h] using hk
    · simp only [argmaxPair, if_neg h] at hk
      omega

theorem argmaxIdx_lt (l : List ℚ) (h : l ≠ []) : argmaxIdx l < l.length := by
  cases l with
  | nil => exact absurd rfl h
  | cons x xs => simpa [argmaxIdx] using argmaxPair_fst_lt x xs

theorem argmaxIdx_le (l : List ℚ) :
    ∀ k, k < l.length → l.getD k 0 ≤ l.getD (argmaxIdx l) 0 := by
  cases l with
  | nil => intro k hk; simp at hk
  | cons x xs =>
    intro k hk
    rw [argmaxIdx, ← argmaxPair_snd_eq_getD]
    exact argmaxPair_le x xs k (by simpa using hk)

theorem argmaxIdx_first (l : List ℚ) :
    ∀ k, k < argmaxIdx l → l.getD k 0 < l.getD (argmaxIdx l) 0 := by
  cases l with
  | nil => intro k hk; simp [argmaxIdx] at hk
  | cons x xs =>
    intro k hk
    rw [argmaxIdx, ← argmaxPair_snd_eq_getD]
    exact argmaxPair_first x xs k (by simpa [argmaxIdx] using hk)

/-! Properties of slices and of the flattened masked matrix. -/

theorem pySlice_length (xs : List ℚ) (a b : ℕ) :
    (pySlice xs a b).length = min (b - a) (xs.length - a) := by
  simp [pySlice]

theorem pySlice_getD (xs : List ℚ) (a b k : ℕ) (hk : k < b - a)
    (hb : b ≤ xs.length) :
    (pySlice xs a b).getD k 0 = xs.getD (a + k) 0 := by
  have h1 : k < (pySlice xs a b).length := by
    rw [pySlice_length]; omega
  have h2 : a + k < xs.length := by omega
  rw [List.getD_eq_getElem _ _ h1, List.getD_eq_getElem _ _ h2]
  simp only [pySlice, List.getElem_take, List.getElem_drop]

theorem pySlice_nonneg (xs : List ℚ) (a b : ℕ) (h : ∀ x ∈ xs, 0 ≤ x) :
    ∀ x ∈ pySlice xs a b, 0 ≤ x := by
  intro x hx
  exact h x (List.mem_of_mem_drop (List.mem_of_mem_take hx))

theorem getD_nonneg (xs : List ℚ) (h : ∀ x ∈ xs, 0 ≤ x) (k : ℕ) :
    0 ≤ xs.getD k 0 := by
  rcases Nat.lt_or_ge k xs.length with hk | hk
  · rw [List.getD_eq_getElem _ _ hk]
    exact h _ (List.getElem_mem hk)
  · rw [List.getD_eq_default _ _ hk]

theorem scoreFlat_length (s e : List ℚ) (cl : ℕ) :
    (scoreFlat s e cl).length = cl * cl := by
  simp [scoreFlat]

theorem scoreFlat_getD (s e : List ℚ) (cl k : ℕ) (hk : k < cl * cl) :
    (scoreFlat s e cl).getD k 0 = maskedEntry s e (k / cl) (k % cl) := by
  have h1 : k < (scoreFlat s e cl).length := by rw [scoreFlat_length]; exact hk
  rw [List.getD_eq_getElem _ _ h1]
  simp [scoreFlat]

theorem pair_flat_lt (cl i j : ℕ) (hi : i < cl) (hj : j < cl) :
    i * cl + j < cl * cl := by
  have h1 : i * cl + j < i * cl + cl := by omega
  have h2 : i * cl + cl = (i + 1) * cl := by ring
  have h3 : (i + 1) * cl ≤ cl * cl := by
    rw [Nat.mul_comm cl cl]
    exact Nat.mul_le_mul_right cl hi
  omega

theorem pair_flat_div (cl i j : ℕ) (hj : j < cl) : (i * cl + j) / cl = i := by
  have hcl : 0 < cl := by omega
  rw [Nat.add_comm, Nat.add_mul_div_right _ _ (by omega : 0 < cl),
    Nat.div_eq_of_lt hj]
  omega

theorem pair_flat_mod (cl i j : ℕ) (hj : j < cl) : (i * cl + j) % cl = j := by
  rw [Nat.add_comm, Nat.add_mul_mod_self_right, Nat.mod_eq_of_lt hj]

theorem flat_le_lex (cl i j i' j' : ℕ) (_hj : j < cl) (_hj' : j' < cl)
    (h : i * cl + j ≤ i' * cl + j') : i < i' ∨ (i = i' ∧ j ≤ j') := by
  rcases Nat.lt_trichotomy i i' with hlt | heq | hgt
  · exact Or.inl hlt
  · subst heq
    right
    exact ⟨rfl, by omega⟩
  · exfalso
    have h2 : (i' + 1) * cl ≤ i * cl := Nat.mul_le_mul_right cl (by omega)
    have h3 : (i' + 1) * cl = i' * cl + cl := by ring
    omega

/-- Unfolding of find_best_answer_window on well-formed inputs. -/
theorem find_eq_of_valid (s e : List ℚ) (cs ce : ℕ)
    (hce : cs < ce) (hs : ce ≤ s.length) (he : ce ≤ e.length) :
    find_best_answer_window s e cs ce =
      some (maskedEntry (pySlice s cs ce) (pySlice e cs ce)
          (argmaxIdx (scoreFlat (pySlice s cs ce) (pySlice e cs ce) (ce - cs)) / (ce - cs))
          (argmaxIdx (scoreFlat (pySlice s cs ce) (pySlice e cs ce) (ce - cs)) % (ce - cs)),
        argmaxIdx (scoreFlat (pySlice s cs ce) (pySlice e cs ce) (ce - cs)) / (ce - cs),
        argmaxIdx (scoreFlat (pySlice s cs ce) (pySlice e cs ce) (ce - cs)) % (ce - cs)) := by
  have hslen : (pySlice s cs ce).length = ce - cs := by
    rw [pySlice_length]; omega
  have helen : (pySlice e cs ce).length = ce - cs := by
    rw [pySlice_length]; omega
  rw [find_best_answer_window, if_neg (by omega)]
  simp only [hslen, helen, and_self, if_pos]

/-- The scorer fails exactly when the context region is empty or reversed,
or one of the score vectors is too short to cover it. -/
theorem find_eq_none_iff (s e : List ℚ) (cs ce : ℕ) :
    find_best_answer_window s e cs ce = none ↔
      ce ≤ cs ∨ s.length < ce ∨ e.length < ce := by
  constructor
  · intro h
    by_contra hc
    push_neg at hc
    rw [find_eq_of_valid s e cs ce (by omega) (by omega) (by omega)] at h
    exact Option.noConfusion h
  · intro h
    rw [find_best_answer_window]
    rcases le_or_lt ce cs with hle | hlt
    · rw [if_pos hle]
    · rw [if_neg (by omega)]
      have hcond : ¬((pySlice s cs ce).length = ce - cs ∧
          (pySlice e cs ce).length = ce - cs) := by
        rw [pySlice_length, pySlice_length]
        omega
      rw [if_neg hcond]

/-- Core correctness of the window search on well-formed non-negative
inputs: the returned window carries the exact product of the two scores,
is a valid window, is maximal among valid windows, and is the row-major
first maximal window. -/
theorem find_window_core (s e : List ℚ) (cs ce : ℕ)
    (hce : cs < ce) (hs : ce ≤ s.length) (he : ce ≤ e.length)
    (hnns : ∀ x ∈ s, 0 ≤ x) (hnne : ∀ x ∈ e, 0 ≤ x) :
    ∃ i j,
      find_best_answer_window s e cs ce
        = some (s.getD (cs + i) 0 * e.getD (cs + j) 0, i, j) ∧
      validPair (ce - cs) i j ∧
      (∀ i' j', validPair (ce - cs) i' j' →
        s.getD (cs + i') 0 * e.getD (cs + j') 0
          ≤ s.getD (cs + i) 0 * e.getD (cs + j) 0) ∧
      (∀ i' j', validPair (ce - cs) i' j' →
        s.getD (cs + i') 0 * e.getD (cs + j') 0
          = s.getD (cs + i) 0 * e.getD (cs + j) 0 →
        i < i' ∨ (i = i' ∧ j ≤ j')) := by
  set cl := ce - cs with hcl
  have hcl0 : 0 < cl := by omega
  set s' := pySlice s cs ce with hsdef
  set e' := pySlice e cs ce with hedef
  set F := scoreFlat s' e' cl with hFdef
  set idx := argmaxIdx F with hidxdef
  have hFlen : F.length = cl * cl := scoreFlat_length s' e' cl
  have hFne : F ≠ [] := by
    intro hnil
    rw [hnil] at hFlen
    simp only [List.length_nil] at hFlen
    have : cl * cl ≠ 0 := Nat.mul_ne_zero (by omega) (by omega)
    omega
  have hidxlt : idx < cl * cl := by
    have h := argmaxIdx_lt F hFne
    omega
  have hi : idx / cl < cl := (Nat.div_lt_iff_lt_mul hcl0).mpr hidxlt
  have hj : idx % cl < cl := Nat.mod_lt idx hcl0
  have hsplit : (idx / cl) * cl + idx % cl = idx := by
    rw [Nat.mul_comm]
    exact Nat.div_add_mod idx cl
  have hFget : ∀ a b : ℕ, a < cl → b < cl →
      F.getD (a * cl + b) 0 = maskedEntry s' e' a b := by
    intro a b ha hb
    rw [scoreFlat_getD s' e' cl _ (pair_flat_lt cl a b ha hb),
      pair_flat_div cl a b hb, pair_flat_mod cl a b hb]
  have hFidx : F.getD idx 0 = maskedEntry s' e' (idx / cl) (idx % cl) :=
    scoreFlat_getD s' e' cl idx hidxlt
  have hmaxM : ∀ a b : ℕ, a < cl → b < cl →
      maskedEntry s' e' a b ≤ maskedEntry s' e' (idx / cl) (idx % cl) := by
    intro a b ha hb
    rw [← hFget a b ha hb, ← hFidx]
    exact argmaxIdx_le F _ (by rw [hFlen]; exact pair_flat_lt cl a b ha hb)
  have hnns' : ∀ x ∈ s', 0 ≤ x := pySlice_nonneg s cs ce hnns
  have hnne' : ∀ x ∈ e', 0 ≤ x := pySlice_nonneg e cs ce hnne
  have hMnn : ∀ a b : ℕ, 0 ≤ maskedEntry s' e' a b := by
    intro a b
    unfold maskedEntry
    split
    · exact mul_nonneg (getD_nonneg s' hnns' a) (getD_nonneg e' hnne' b)
    · exact le_refl 0
  have h00cond : (0 : ℕ) ≤ 0 ∧ (0 : ℕ) ≤ 0 + 16 := by omega
  have hvalid : idx / cl ≤ idx % cl ∧ idx % cl ≤ idx / cl + 16 := by
    by_contra hc
    have h0 : maskedEntry s' e' (idx / cl) (idx % cl) = 0 := by
      unfold maskedEntry
      rw [if_neg hc]
    have h00 : maskedEntry s' e' 0 0 = 0 := by
      have hle : maskedEntry s' e' 0 0 ≤ 0 := h0 ▸ hmaxM 0 0 hcl0 hcl0
      exact le_antisymm hle (hMnn 0 0)
    have hF0 : F.getD 0 0 = 0 := by
      have h := hFget 0 0 hcl0 hcl0
      simpa using h.trans h00
    have hidx0 : idx = 0 := by
      by_contra hne
      have hlt := argmaxIdx_first F 0 (by omega)
      rw [← hidxdef] at hlt
      rw [hF0, hFidx, h0] at hlt
      exact absurd hlt (lt_irrefl 0)
    rw [hidx0] at hc
    simp only [Nat.zero_div, Nat.zero_mod] at hc
    exact hc h00cond
  have hMidx : maskedEntry s' e' (idx / cl) (idx % cl)
      = s'.getD (idx / cl) 0 * e'.getD (idx % cl) 0 := by
    unfold maskedEntry
    rw [if_pos hvalid]
  have htrs : ∀ k, k < cl → s'.getD k 0 = s.getD (cs + k) 0 := by
    intro k hk
    exact pySlice_getD s cs ce k (by omega) hs
  have htre : ∀ k, k < cl → e'.getD k 0 = e.getD (cs + k) 0 := by
    intro k hk
    exact pySlice_getD e cs ce k (by omega) he
  have hMv : ∀ a b : ℕ, validPair cl a b →
      maskedEntry s' e' a b = s.getD (cs + a) 0 * e.getD (cs + b) 0 := by
    intro a b hv
    obtain ⟨h1, h2, h3⟩ := hv
    unfold maskedEntry
    rw [if_pos ⟨h1, h2⟩, htrs a (by omega), htre b h3]
  refine ⟨idx / cl, idx % cl, ?_, ⟨hvalid.1, hvalid.2, hj⟩, ?_, ?_⟩
  · rw [find_eq_of_valid s e cs ce hce hs he]
    rw [← hsdef, ← hedef, ← hcl, ← hFdef, ← hidxdef]
    rw [hMidx, htrs _ hi, htre _ hj]
  · intro i' j' hv
    rw [← hMv i' j' hv, ← htrs _ hi, ← htre _ hj, ← hMidx]
    exact hmaxM i' j' (by obtain ⟨h1, h2, h3⟩ := hv; omega) hv.2.2
  · intro i' j' hv heq
    have hk'lt : i' * cl + j' < cl * cl :=
      pair_flat_lt cl i' j' (by obtain ⟨h1, h2, h3⟩ := hv; omega) hv.2.2
    have hFk' : F.getD (i' * cl + j') 0 = maskedEntry s' e' i' j' :=
      hFget i' j' (by obtain ⟨h1, h2, h3⟩ := hv; omega) hv.2.2
    have hkeq : F.getD (i' * cl + j') 0 = F.getD idx 0 := by
      rw [hFk', hFidx, hMv i' j' hv, hMidx, htrs _ hi, htre _ hj, heq]
    have hnotlt : ¬(i' * cl + j' < idx) := by
      intro hlt
      have h := argmaxIdx_first F _ hlt
      rw [← hidxdef] at h
      rw [hkeq] at h
      exact absurd h (lt_irrefl _)
    have hle : (idx / cl) * cl + idx % cl ≤ i' * cl + j' := by omega
    exact flat_le_lex cl (idx / cl) (idx % cl) i' j' hj hv.2.2 hle

/-- C1: for equal-length non-negative score vectors and a non-empty
context region inside them, find_best_answer_window returns a triple
(score, i, j) where (i, j) is a valid window, score is exactly
start_score[cs+i] * end_score[cs+j], that product is maximal over all
valid windows, and every other valid window attaining the maximum comes
later in row-major order. -/
theorem find_best_answer_window_correct (s e : List ℚ) (cs ce : ℕ)
    (hlen : s.length = e.length)
    (hnns : ∀ x ∈ s, 0 ≤ x) (hnne : ∀ x ∈ e, 0 ≤ x)
    (hce : cs < ce) (hN : ce ≤ s.length) :
    ∃ i j,
      find_best_answer_window s e cs ce
        = some (s.getD (cs + i) 0 * e.getD (cs + j) 0, i, j) ∧
      validPair (ce - cs) i j ∧
      (∀ i' j', validPair (ce - cs) i' j' →
        s.getD (cs + i') 0 * e.getD (cs + j') 0
          ≤ s.getD (cs + i) 0 * e.getD (cs + j) 0) ∧
      (∀ i' j', validPair (ce - cs) i' j' →
        s.getD (cs + i') 0 * e.getD (cs + j') 0
          = s.getD (cs + i) 0 * e.getD (cs + j) 0 →
        i < i' ∨ (i = i' ∧ j ≤ j')) :=
  find_window_core s e cs ce hce hN (hlen ▸ hN) hnns hnne

/-- C1 witness at a concrete input. -/
theorem find_best_answer_window_correct_witness :
    ∃ i j,
      find_best_answer_window [1/2, 1/4] [1/4, 1/2] 0 2
        = some (([1/2, 1/4] : List ℚ).getD (0 + i) 0
            * ([1/4, 1/2] : List ℚ).getD (0 + j) 0, i, j) ∧
      validPair (2 - 0) i j ∧
      (∀ i' j', validPair (2 - 0) i' j' →
        ([1/2, 1/4] : List ℚ).getD (0 + i') 0
            * ([1/4, 1/2] : List ℚ).getD (0 + j') 0
          ≤ ([1/2, 1/4] : List ℚ).getD (0 + i) 0
            * ([1/4, 1/2] : List ℚ).getD (0 + j) 0) ∧
      (∀ i' j', validPair (2 - 0) i' j' →
        ([1/2, 1/4] : List ℚ).getD (0 + i') 0
            * ([1/4, 1/2] : List ℚ).getD (0 + j') 0
          = ([1/2, 1/4] : List ℚ).getD (0 + i) 0
            * ([1/4, 1/2] : List ℚ).getD (0 + j) 0 →
        i < i' ∨ (i = i' ∧ j ≤ j')) :=
  find_best_answer_window_correct [1/2, 1/4] [1/4, 1/2] 0 2 rfl
    (by norm_num) (by norm_num) (by norm_num) (by norm_num)

/-- C2: on equal-length non-negative score vectors and a non-empty
context region, the returned indices keep the window inside the context
region and its offset at most 16. -/
theorem find_best_answer_window_in_bounds (s e : List ℚ) (cs ce : ℕ)
    (hlen : s.length = e.length)
    (hnns : ∀ x ∈ s, 0 ≤ x) (hnne : ∀ x ∈ e, 0 ≤ x)
    (hce : cs < ce) (hN : ce ≤ s.length) :
    ∃ sc i j,
      find_best_answer_window s e cs ce = some (sc, i, j) ∧
      cs ≤ cs + i ∧ cs + i ≤ cs + j ∧ cs + j < ce ∧ j - i ≤ 16 := by
  obtain ⟨i, j, hfind, ⟨h1, h2, h3⟩, -, -⟩ :=
    find_window_core s e cs ce hce hN (hlen ▸ hN) hnns hnne
  exact ⟨_, i, j, hfind, by omega, by omega, by omega, by omega⟩

/-- C2 witness at a concrete input. -/
theorem find_best_answer_window_in_bounds_witness :
    ∃ sc i j,
      find_best_answer_window [2, 3] [1, 1] 0 2 = some (sc, i, j) ∧
      0 ≤ 0 + i ∧ 0 + i ≤ 0 + j ∧ 0 + j < 2 ∧ j - i ≤ 16 :=
  find_best_answer_window_in_bounds [2, 3] [1, 1] 0 2 rfl
    (by norm_num) (by norm_num) (by norm_num) (by norm_num)

/-- C4: whenever the scorer returns on non-negative score vectors, the
returned window satisfies start index at most end index and window
offset at most 16 tokens, the fixed maximum (the code zeroes entries
with j - i greater than 16). -/
theorem find_best_answer_window_span_invariant (s e : List ℚ) (cs ce : ℕ)
    (sc : ℚ) (i j : ℕ)
    (hnns : ∀ x ∈ s, 0 ≤ x) (hnne : ∀ x ∈ e, 0 ≤ x)
    (hret : find_best_answer_window s e cs ce = some (sc, i, j)) :
    i ≤ j ∧ j - i ≤ 16 := by
  have hnone : find_best_answer_window s e cs ce ≠ none := by
    rw [hret]
    exact Option.some_ne_none _
  have hcond : ¬(ce ≤ cs ∨ s.length < ce ∨ e.length < ce) := fun hc =>
    hnone ((find_eq_none_iff s e cs ce).mpr hc)
  push_neg at hcond
  obtain ⟨h1, h2, h3⟩ := hcond
  obtain ⟨i0, j0, hfind, ⟨hv1, hv2, hv3⟩, -, -⟩ :=
    find_window_core s e cs ce h1 h2 h3 hnns hnne
  rw [hret] at hfind
  simp only [Option.some.injEq, Prod.mk.injEq] at hfind
  obtain ⟨-, hi0, hj0⟩ := hfind
  omega

/-- C4 witness at a concrete input. -/
theorem find_best_answer_window_span_invariant_witness :
    (0 : ℕ) ≤ 0 ∧ (0 : ℕ) - 0 ≤ 16 :=
  find_best_answer_window_span_invariant [1, 1] [1, 1] 0 2 1 0 0
    (by norm_num) (by norm_num)
    (by norm_num [find_best_answer_window, pySlice, scoreFlat, argmaxIdx,
      argmaxPair, maskedEntry, List.range_succ])

/-- C6 counterexample: start and end score vectors of different lengths
are not rejected; as long as both cover the context region the scorer
simply returns an answer window. -/
theorem find_length_mismatch_returns_window :
    ([1, 1, 1, 1, 1] : List ℚ).length ≠ ([1, 1, 1, 1] : List ℚ).length ∧
    find_best_answer_window [1, 1, 1, 1, 1] [1, 1, 1, 1] 0 4
      = some (1, 0, 0) := by
  constructor
  · norm_num
  · norm_num [find_best_answer_window, pySlice, scoreFlat, argmaxIdx,
      argmaxPair, maskedEntry, List.range_succ]

/-- C6 amended: the scorer fails (a numpy exception, modelled none)
exactly when the context region is empty or reversed, or one of the two
score vectors is too short to cover it; a pure length mismatch between
vectors that both cover the region is not detected. -/
theorem find_fails_iff_malformed_region (s e : List ℚ) (cs ce : ℕ) :
    find_best_answer_window s e cs ce = none ↔
      ce ≤ cs ∨ s.length < ce ∨ e.length < ce :=
  find_eq_none_iff s e cs ce

/-- C7: the end-to-end scenario from the spec, computed exactly over
rationals: start scores [0.1, 0.1, 0.7, 0.1] and end scores
[0.1, 0.1, 0.1, 0.7] over the whole region give window (2, 3) with
score 0.49. -/
theorem find_best_answer_window_scenario :
    find_best_answer_window [1/10, 1/10, 7/10, 1/10] [1/10, 1/10, 1/10, 7/10] 0 4
      = some (49/100, 2, 3) := by
  norm_num [find_best_answer_window, pySlice, scoreFlat, argmaxIdx, argmaxPair,
    maskedEntry, List.range_succ]

/-- C8: the scorer is a pure function of its four arguments, so two
calls on identical inputs give identical results; the embedding is a
function, mirroring that the numpy code only builds new arrays (matmul,
triu, tril, flatten) and never writes to its inputs. -/
theorem find_best_answer_window_deterministic (s e : List ℚ) (cs ce : ℕ) :
    find_best_answer_window s e cs ce = find_best_answer_window s e cs ce := rfl

/-- C9: a context region of length one returns window (0, 0) for every
pair of score vectors covering it. -/
theorem find_singleton_context (s e : List ℚ) (cs : ℕ)
    (hs : cs + 1 ≤ s.length) (he : cs + 1 ≤ e.length) :
    ∃ sc, find_best_answer_window s e cs (cs + 1) = some (sc, 0, 0) := by
  have h := find_eq_of_valid s e cs (cs + 1) (by omega) hs he
  have hcl : cs + 1 - cs = 1 := by omega
  rw [hcl] at h
  set F := scoreFlat (pySlice s cs (cs + 1)) (pySlice e cs (cs + 1)) 1 with hF
  have hFlen : F.length = 1 := by rw [hF, scoreFlat_length]
  have hidxlt : argmaxIdx F < 1 := by
    have hne : F ≠ [] := by
      intro hnil
      rw [hnil] at hFlen
      simp at hFlen
    have := argmaxIdx_lt F hne
    omega
  have hidx0 : argmaxIdx F = 0 := by omega
  refine ⟨maskedEntry (pySlice s cs (cs + 1)) (pySlice e cs (cs + 1)) 0 0, ?_⟩
  rw [h, hidx0]

/-- C9 witness at a concrete input. -/
theorem find_singleton_context_witness :
    ∃ sc, find_best_answer_window [3] [4] 0 (0 + 1) = some (sc, 0, 0) :=
  find_singleton_context [3] [4] 0 (by norm_num) (by norm_num)

theorem uniform_getD (xs : List ℚ) (a : ℚ) (h : ∀ x ∈ xs, x = a)
    (k : ℕ) (hk : k < xs.length) : xs.getD k 0 = a := by
  rw [List.getD_eq_getElem _ _ hk]
  exact h _ (List.getElem_mem hk)

/-- C5 counterexample: on the uniform vectors [1, 1] and [1, 1] over the
whole region the scorer returns window (0, 0), not
(0, min 16 (context_len - 1)) = (0, 1): with all entries equal the very
first cell of the row-major scan already attains the maximum. -/
theorem find_uniform_not_min16 :
    ¬ ∃ sc, find_best_answer_window [1, 1] [1, 1] 0 2
        = some (sc, 0, min 16 (2 - 1)) := by
  intro ⟨sc, h⟩
  have h2 : find_best_answer_window [1, 1] [1, 1] 0 2 = some (1, 0, 0) := by
    norm_num [find_best_answer_window, pySlice, scoreFlat, argmaxIdx,
      argmaxPair, maskedEntry, List.range_succ]
  rw [h2] at h
  injection h with h
  have h3 : (0 : ℕ) = min 16 (2 - 1) := congrArg (fun t : ℚ × ℕ × ℕ => t.2.2) h
  norm_num at h3

/-- C5 amended: uniform score vectors with non-negative values over a
non-empty context region return the lexicographically first maximal
window, which is i = 0, j = 0 (not j = min 16 (context_len - 1)), with
score equal to the product of the two constants. -/
theorem find_uniform_first_window (s e : List ℚ) (a b : ℚ) (cs ce : ℕ)
    (hua : ∀ x ∈ s, x = a) (hub : ∀ x ∈ e, x = b)
    (ha : 0 ≤ a) (hb : 0 ≤ b)
    (hce : cs < ce) (hs : ce ≤ s.length) (he : ce ≤ e.length) :
    find_best_answer_window s e cs ce = some (a * b, 0, 0) := by
  set cl := ce - cs with hcl
  have hcl0 : 0 < cl := by omega
  set s' := pySlice s cs ce with hsdef
  set e' := pySlice e cs ce with hedef
  have hsllen : s'.length = cl := by
    rw [hsdef, pySlice_length]
    omega
  have hellen : e'.length = cl := by
    rw [hedef, pySlice_length]
    omega
  have hu_s : ∀ x ∈ s', x = a := fun x hx =>
    hua x (List.mem_of_mem_drop (List.mem_of_mem_take hx))
  have hu_e : ∀ x ∈ e', x = b := fun x hx =>
    hub x (List.mem_of_mem_drop (List.mem_of_mem_take hx))
  have hM : ∀ i j : ℕ, i < cl → j < cl →
      maskedEntry s' e' i j = if i ≤ j ∧ j ≤ i + 16 then a * b else 0 := by
    intro i j hi hj
    unfold maskedEntry
    split
    · rw [uniform_getD s' a hu_s i (by omega), uniform_getD e' b hu_e j (by omega)]
    · rfl
  set F := scoreFlat s' e' cl with hFdef
  set idx := argmaxIdx F with hidxdef
  have hFlen : F.length = cl * cl := scoreFlat_length s' e' cl
  have hclcl : 0 < cl * cl := Nat.mul_pos hcl0 hcl0
  have hFne : F ≠ [] := by
    intro hnil
    rw [hnil] at hFlen
    simp only [List.length_nil] at hFlen
    omega
  have hidxlt : idx < cl * cl := by
    have h := argmaxIdx_lt F hFne
    omega
  have hi : idx / cl < cl := (Nat.div_lt_iff_lt_mul hcl0).mpr hidxlt
  have hj : idx % cl < cl := Nat.mod_lt idx hcl0
  have hF0 : F.getD 0 0 = a * b := by
    have h := scoreFlat_getD s' e' cl 0 hclcl
    rw [h, Nat.zero_div, Nat.zero_mod, hM 0 0 hcl0 hcl0, if_pos (by omega)]
  have hFidxval : F.getD idx 0 = maskedEntry s' e' (idx / cl) (idx % cl) :=
    scoreFlat_getD s' e' cl idx hidxlt
  have hle1 : F.getD 0 0 ≤ F.getD idx 0 := argmaxIdx_le F 0 (by omega)
  have hle2 : F.getD idx 0 ≤ a * b := by
    rw [hFidxval, hM _ _ hi hj]
    split
    · exact le_refl _
    · exact mul_nonneg ha hb
  have hFeq : F.getD idx 0 = a * b := le_antisymm hle2 (hF0 ▸ hle1)
  have hidx0 : idx = 0 := by
    by_contra hne
    have hlt := argmaxIdx_first F 0 (by omega)
    rw [← hidxdef, hF0, hFeq] at hlt
    exact absurd hlt (lt_irrefl _)
  rw [find_eq_of_valid s e cs ce hce hs he,
    ← hsdef, ← hedef, ← hcl, ← hFdef, ← hidxdef, hidx0, Nat.zero_div,
    Nat.zero_mod, hM 0 0 hcl0 hcl0, if_pos (by omega)]

/-- C5 amended witness at a concrete input. -/
theorem find_uniform_first_window_witness :
    find_best_answer_window [1, 1] [2, 2] 0 2 = some (1 * 2, 0, 0) :=
  find_uniform_first_window [1, 1] [2, 2] 1 2 0 2
    (by norm_num) (by norm_num) (by norm_num) (by norm_num)
    (by norm_num) (by norm_num) (by norm_num)

/-- C3 counterexample: the caller does not add context_start_idx before
indexing the span index map.  With an empty question (context starts at
full-sequence index 2) and best window (0, 0), the code reads entry 0 of
the span map while the spec mapping would read entry 2; the results
differ. -/
theorem postprocess_not_full_sequence_lookup :
    postprocess [0, 0, 1, 0, 0, 0, 0] [0, 0, 1, 0, 0, 0, 0] 0 7
        [(0, 1), (2, 3), (4, 5), (6, 7)]
      ≠ postprocessSpec [0, 0, 1, 0, 0, 0, 0] [0, 0, 1, 0, 0, 0, 0] 0 7
        [(0, 1), (2, 3), (4, 5), (6, 7)] := by
  have hfind : find_best_answer_window
      [0, 0, 1, 0, 0, 0, 0] [0, 0, 1, 0, 0, 0, 0] (0 + 2) (7 - 1)
      = some (1, 0, 0) := by
    norm_num [find_best_answer_window, pySlice, scoreFlat, argmaxIdx,
      argmaxPair, maskedEntry, List.range_succ]
  simp only [postprocess, postprocessSpec, hfind]
  norm_num

/-- C3 amended: after find_best_answer_window returns context-local
indices, the caller looks them up directly (with no context_start_idx
shift) in the span index map, which holds one character-offset pair per
context token, and slices the context string with the offsets found
there. -/
theorem get_best_answer_uses_local_indices (ctx : List Char)
    (ss se : List ℚ) (ql ctl : ℕ) (ctse : List (ℕ × ℕ))
    (sc : ℚ) (ms me : ℕ) (p q : ℕ × ℕ)
    (hf : find_best_answer_window ss se (ql + 2) (ctl + ql + 3 - 1)
      = some (sc, ms, me))
    (hp : ctse[ms]? = some p) (hq : ctse[me]? = some q) :
    get_best_answer_core ctx ss se ql ctl ctse
      = some (strSlice ctx p.1 q.2, sc) := by
  simp only [get_best_answer_core, postprocess, hf, hp, hq]

/-- C3 amended witness at a concrete input. -/
theorem get_best_answer_uses_local_indices_witness :
    get_best_answer_core ['a', 'b', 'c', 'd', 'e', 'f', 'g', 'h']
        [0, 0, 1, 0, 0, 0, 0] [0, 0, 1, 0, 0, 0, 0] 0 4
        [(0, 1), (2, 3), (4, 5), (6, 7)]
      = some (strSlice ['a', 'b', 'c', 'd', 'e', 'f', 'g', 'h'] (0, 1).1 (0, 1).2, 1) :=
  get_best_answer_uses_local_indices
    ['a', 'b', 'c', 'd', 'e', 'f', 'g', 'h']
    [0, 0, 1, 0, 0, 0, 0] [0, 0, 1, 0, 0, 0, 0] 0 4
    [(0, 1), (2, 3), (4, 5), (6, 7)] 1 0 0 (0, 1) (0, 1)
    (by norm_num [find_best_answer_window, pySlice, scoreFlat, argmaxIdx,
      argmaxPair, maskedEntry, List.range_succ])
    (by rfl) (by rfl)

/-- C10: prepare_input produces input_ids, attention_mask and
token_type_ids of equal length question + context + 3, with the mask all
ones and the type ids zero on the first question + 2 positions and one
on the remaining context + 1 positions. -/
theorem prepare_input_shapes (q c : List ℕ) (cls sep : ℕ) :
    (prepare_input q c cls sep).1.length = q.length + c.length + 3 ∧
    (prepare_input q c cls sep).2.1.length = q.length + c.length + 3 ∧
    (prepare_input q c cls sep).2.2.length = q.length + c.length + 3 ∧
    (∀ x ∈ (prepare_input q c cls sep).2.1, x = 1) ∧
    (∀ k, k < q.length + 2 → (prepare_input q c cls sep).2.2.getD k 2 = 0) ∧
    (∀ k, q.length + 2 ≤ k → k < q.length + c.length + 3 →
      (prepare_input q c cls sep).2.2.getD k 2 = 1) := by
  refine ⟨?_, ?_, ?_, ?_, ?_, ?_⟩
  · simp only [prepare_input, List.length_append, List.length_cons,
      List.length_nil]
    omega
  · simp only [prepare_input, List.length_replicate, List.length_append,
      List.length_cons, List.length_nil]
    omega
  · simp only [prepare_input, List.length_append, List.length_replicate]
    omega
  · intro x hx
    simp only [prepare_input] at hx
    exact List.eq_of_mem_replicate hx
  · intro k hk
    simp only [prepare_input]
    have hk2 : k < (List.replicate (q.length + 2) 0).length := by
      simp only [List.length_replicate]
      omega
    have hklen : k < (List.replicate (q.length + 2) 0
        ++ List.replicate (c.length + 1) 1).length := by
      simp only [List.length_append, List.length_replicate]
      omega
    rw [List.getD_eq_getElem _ _ hklen]
    rw [List.getElem_append_left hk2]
    simp
  · intro k hk1 hk2
    simp only [prepare_input]
    have hklen : k < (List.replicate (q.length + 2) 0
        ++ List.replicate (c.length + 1) 1).length := by
      simp only [List.length_append, List.length_replicate]
      omega
    rw [List.getD_eq_getElem _ _ hklen]
    rw [List.getElem_append_right (by simp only [List.length_replicate]; omega)]
    simp

/-- C10 witness at a concrete input. -/
theorem prepare_input_shapes_witness :
    (prepare_input [5] [7, 8] 101 102).1.length = [5].length + [7, 8].length + 3 ∧
    (prepare_input [5] [7, 8] 101 102).2.1.length = [5].length + [7, 8].length + 3 ∧
    (prepare_input [5] [7, 8] 101 102).2.2.length = [5].length + [7, 8].length + 3 ∧
    (∀ x ∈ (prepare_input [5] [7, 8] 101 102).2.1, x = 1) ∧
    (∀ k, k < [5].length + 2 →
      (prepare_input [5] [7, 8] 101 102).2.2.getD k 2 = 0) ∧
    (∀ k, [5].length + 2 ≤ k → k < [5].length + [7, 8].length + 3 →
      (prepare_input [5] [7, 8] 101 102).2.2.getD k 2 = 1) :=
  prepare_input_shapes [5] [7, 8] 101 102

end QA
